import Mathlib

/-!
Shallow embedding of the `numbers` package (Go): a concurrent URL
fetcher/aggregator.  Pure parts (configuration normalization, response
decoding, aggregation, the HTTP handler) are embedded as Lean functions;
the concurrent dispatch loops `processURLs` and `processURLs2` are embedded
as executable small-step transition systems over explicit states, with
nondeterminism (goroutine interleaving, `select` choice, context
cancellation) expressed as the choice of an action list.
-/

namespace Numbers

/-- Model of a `URLGetter` value stored in `Config.URLGetter`.
`defaultGet t` models the value built by `NewDefaultGet(t)` (an http.Client
whose `Timeout` field is `t`); `custom k` models any caller-supplied
implementation, identified abstractly. -/
inductive URLGetterV where
  | defaultGet (clientTimeout : Int)
  | custom (k : Nat)
  deriving DecidableEq, Repr

/-- Model of `Config` (numbers.go).  Durations are modelled as integers
(nanosecond counts); the embedded `URLGetter` field is `none` for Go `nil`. -/
structure Config where
  responseTimeout : Int
  getTimeout : Int
  numGoRoutines : Int
  urlGetter : Option URLGetterV
  deriving DecidableEq, Repr

/-- The package-level variable `numGoRoutines = 20` (numbers.go line 49). -/
def numGoRoutinesVar : Int := 20

/-- The in-place normalization that `ProcessURLs` performs on the
caller-supplied `*Config` before dispatch (numbers.go lines 55-60): a
non-positive `NumGoRoutines` is overwritten with the package default, and a
nil `URLGetter` is replaced by `NewDefaultGet(cfg.GetTimeout)`. -/
def normalizeConfig (cfg : Config) : Config :=
  { cfg with
    numGoRoutines := if cfg.numGoRoutines ≤ 0 then numGoRoutinesVar else cfg.numGoRoutines
    urlGetter :=
      match cfg.urlGetter with
      | none => some (URLGetterV.defaultGet cfg.getTimeout)
      | some g => some g }

/-- The worker count `processURLs` actually spins up, as a `Nat`
(the `for i := 0; i < cfg.NumGoRoutines; i++` loop bound after
normalization). -/
def workerCount (cfg : Config) : Nat :=
  (normalizeConfig cfg).numGoRoutines.toNat

/-- The possible outcomes of one HTTP GET attempt inside `defaultGet.Get`,
as distinguished by its code paths: request construction failure,
`client.Do` returning an error (covering transport failure, the per-item
client timeout and context cancellation), a response with some status code
and body, or a body-read failure. -/
inductive GetOutcome where
  | badURL
  | doError
  | status (code : Nat) (body : String)
  | readError
  deriving DecidableEq, Repr

/-- Model of `defaultGet.Get` (the default `URLGetter` implementation):
any request/transport/read failure propagates as an error, a non-200
status becomes the error "service unavailable", and only a 200 response
yields its body bytes. -/
def defaultGetGet (o : GetOutcome) : Except String String :=
  match o with
  | GetOutcome.badURL => Except.error "bad request"
  | GetOutcome.doError => Except.error "transport error"
  | GetOutcome.status code body =>
      if code = 200 then Except.ok body else Except.error "service unavailable"
  | GetOutcome.readError => Except.error "read error"

/-- Model of `fetchResponse` (numbers.go lines 116-131): if `ug.Get` errors
the result is the nil slice (here `none`); if `json.Unmarshal` fails the
result is the nil slice; otherwise the decoded `Numbers` field is returned.
`unmarshal` models `json.Unmarshal` into the `result` struct: `none` for a
decode error, `some ns` for a successful decode of the `numbers` field. -/
def fetchResponse (getRes : Except String String)
    (unmarshal : String → Option (List Int)) : Option (List Int) :=
  match getRes with
  | Except.error _ => none
  | Except.ok data =>
      match unmarshal data with
      | none => none
      | some ns => some ns

/-- Model of the aggregation loop in `NumbersGetter.ServeHTTP`
(server.go lines 37-49): every integer of every received slice is inserted
into `numbersMap` (a set), the keys are collected and sorted ascending with
`sort.Ints`.  A Go map's keys are a set and iteration order is irrelevant
after sorting, so the result is the canonical ascending enumeration of the
set of all integers occurring in the inputs. -/
def aggregate (results : List (List Int)) : List Int :=
  (results.flatten.toFinset).sort (· ≤ ·)

/-- The value a Go `range` loop sees for one channel element: a nil slice
(`none`, the absent Item Result) iterates zero times, i.e. contributes the
empty list. -/
def itemValues (r : Option (List Int)) : List Int := r.getD []

/-- Outcome of one `ServeHTTP` call: either the process is terminated by
`log.Fatal` (no response is written), or an HTTP response with a status
code, a Content-Type header and the JSON body `{"Numbers": body}`. -/
inductive HandlerOutcome where
  | fatal (msg : String)
  | response (statusCode : Nat) (contentType : String) (body : List Int)
  deriving DecidableEq, Repr

/-- Model of `NumbersGetter.ServeHTTP` (server.go lines 24-55) at the level
of its observable effects.  `parseOk` is whether `r.ParseForm()` succeeded;
`results` is the sequence of slices received from the `ProcessURLs` channel
(in completion order).  On parse failure the handler calls
`log.Fatal("incorrect form")` and writes nothing; otherwise it passes
`&ng.Config` to `ProcessURLs` (which normalizes it in place), drains the
channel, and writes status 200 with the aggregated sorted body.  The
returned `Config` is the handler's stored `ng.Config` after the call. -/
def ServeHTTP (cfg : Config) (parseOk : Bool)
    (results : List (Option (List Int))) : Config × HandlerOutcome :=
  if parseOk then
    (normalizeConfig cfg,
     HandlerOutcome.response 200 "application/json"
       (aggregate (results.map itemValues)))
  else
    (cfg, HandlerOutcome.fatal "incorrect form")

/-- The state of one worker goroutine of the fixed pool: blocked receiving
on `urlCh`, executing `fetchResponse` for a url, about to send its
(possibly nil) result on `out`, or returned (after `wg.Done()`). -/
inductive WState where
  | idle
  | fetching (url : String)
  | sending (res : Option (List Int))
  | done
  deriving DecidableEq, Repr

/-- Where the `processURLs` goroutine itself is: in the dispatch `for` loop,
between `close(urlCh)` and `close(out)` (the `wg.Wait()` barrier), or past
`close(out)`. -/
inductive PPhase where
  | dispatching
  | waitingWG
  | finished
  deriving DecidableEq, Repr

/-- Global state of one `processURLs` call.  `processed` records, in loop
order, each url the dispatch loop has consumed and whether the `select`
chose `urlCh <- url` (`true`) or `<-ctx.Done()` (`false`).  `sentList` is
the sequence of Item Results sent on `out` so far.  `badSend` records
whether a send on the closed `out` channel (a Go panic) ever happened. -/
structure PState where
  remaining : List String
  processed : List (String × Bool)
  cancelled : Bool
  queueClosed : Bool
  workers : List WState
  phase : PPhase
  outClosed : Bool
  closeCount : Nat
  sentList : List (Option (List Int))
  badSend : Bool
  deriving DecidableEq, Repr

/-- Initial state: the dispatch loop at the head of `urls`, `n` idle
workers, both channels open, nothing sent. -/
def initState (n : Nat) (urls : List String) : PState :=
  { remaining := urls
    processed := []
    cancelled := false
    queueClosed := false
    workers := List.replicate n WState.idle
    phase := PPhase.dispatching
    outClosed := false
    closeCount := 0
    sentList := []
    badSend := false }

/-- The state `ProcessURLs` spawns `processURLs` in, after normalizing the
config: the pool size is the (normalized) `NumGoRoutines`. -/
def initOfCfg (cfg : Config) (urls : List String) : PState :=
  initState (workerCount cfg) urls

/-- One scheduling step.  `dispatch w` is the producer's `select` choosing
`urlCh <- url` while worker `w` is blocked receiving; `skip` is the
`select` choosing `<-ctx.Done()` — the `break` terminates only the
`select`, so the loop simply advances to the next url; `complete w res` is
worker `w`'s `fetchResponse` returning `res`; `exitW w` is worker `w`
observing the closed `urlCh` and returning. -/
inductive Action where
  | cancel
  | dispatch (w : Nat)
  | skip
  | closeQueue
  | complete (w : Nat) (res : Option (List Int))
  | send (w : Nat)
  | exitW (w : Nat)
  | closeOut
  deriving DecidableEq, Repr

/-- `wg.Wait()` has returned: every worker goroutine has called
`wg.Done()`. -/
def allDoneB (ws : List WState) : Bool :=
  ws.all (fun w => w = WState.done)

/-- The transition function of the `processURLs` model. -/
def step (s : PState) (a : Action) : Option PState :=
  match a with
  | Action.cancel => some { s with cancelled := true }
  | Action.dispatch w =>
      match s.phase, s.remaining, s.workers[w]? with
      | PPhase.dispatching, u :: rest, some WState.idle =>
          some { s with remaining := rest,
                        processed := s.processed ++ [(u, true)],
                        workers := s.workers.set w (WState.fetching u) }
      | _, _, _ => none
  | Action.skip =>
      match s.phase, s.remaining, s.cancelled with
      | PPhase.dispatching, u :: rest, true =>
          some { s with remaining := rest,
                        processed := s.processed ++ [(u, false)] }
      | _, _, _ => none
  | Action.closeQueue =>
      match s.phase, s.remaining with
      | PPhase.dispatching, [] =>
          some { s with phase := PPhase.waitingWG, queueClosed := true }
      | _, _ => none
  | Action.complete w res =>
      match s.workers[w]? with
      | some (WState.fetching _) =>
          some { s with workers := s.workers.set w (WState.sending res) }
      | _ => none
  | Action.send w =>
      match s.workers[w]? with
      | some (WState.sending r) =>
          if s.outClosed then some { s with badSend := true }
          else some { s with workers := s.workers.set w WState.idle,
                             sentList := s.sentList ++ [r] }
      | _ => none
  | Action.exitW w =>
      match s.workers[w]?, s.queueClosed with
      | some WState.idle, true =>
          some { s with workers := s.workers.set w WState.done }
      | _, _ => none
  | Action.closeOut =>
      match s.phase with
      | PPhase.waitingWG =>
          if allDoneB s.workers then
            some { s with phase := PPhase.finished, outClosed := true,
                          closeCount := s.closeCount + 1 }
          else none
      | _ => none

/-- Run a list of scheduled actions from a state. -/
def run (s : PState) (acts : List Action) : Option PState :=
  match acts with
  | [] => some s
  | a :: rest =>
      match step s a with
      | none => none
      | some s' => run s' rest

/-- Whether a worker is between receiving a url and sending its result. -/
def isBusy : WState → Bool
  | WState.fetching _ => true
  | WState.sending _ => true
  | _ => false

/-- The urls that were actually sent on `urlCh` (delivered to a worker),
in dispatch order. -/
def dispatchedL (s : PState) : List String :=
  (s.processed.filter (fun p => p.2)).map Prod.fst

/-- The safety invariant of the `processURLs` model, for an initial url
list `urls0`. -/
structure Inv (urls0 : List String) (s : PState) : Prop where
  split : s.processed.map Prod.fst ++ s.remaining = urls0
  sentBusy : s.sentList.length + s.workers.countP isBusy = (dispatchedL s).length
  phaseQueue : s.queueClosed = true ↔ s.phase ≠ PPhase.dispatching
  phaseOut : s.outClosed = true ↔ s.phase = PPhase.finished
  closedDone : s.outClosed = true → ∀ w ∈ s.workers, w = WState.done
  closeOnce : s.closeCount = if s.outClosed then 1 else 0
  noBad : s.badSend = false

def skipActs : List String → List Action
  | [] => []
  | _ :: us => Action.skip :: skipActs us

def exitActs : Nat → Nat → List Action
  | _, 0 => []
  | k, Nat.succ m => Action.exitW k :: exitActs (k + 1) m

def drainActs (n : Nat) (urls : List String) : List Action :=
  Action.cancel ::
    (skipActs urls ++ (Action.closeQueue :: (exitActs 0 n ++ [Action.closeOut])))

inductive P2Phase where
  | looping
  | waiting
  | finished
  | returnedEarly
  deriving DecidableEq, Repr

structure P2State where
  remaining : List String
  cancelled : Bool
  inFlight : Nat
  limiterUsed : Nat
  cap : Nat
  sentCount : Nat
  phase : P2Phase
  outClosed : Bool
  closeCount : Nat
  badSend : Bool
  deriving DecidableEq, Repr

def init2 (cap : Nat) (urls : List String) : P2State :=
  { remaining := urls, cancelled := false, inFlight := 0, limiterUsed := 0,
    cap := cap, sentCount := 0, phase := P2Phase.looping, outClosed := false,
    closeCount := 0, badSend := false }

inductive P2Action where
  | cancel
  | spawn
  | returnEarly
  | loopDone
  | finishTask
  | closeAll
  deriving DecidableEq, Repr

def step2 (s : P2State) (a : P2Action) : Option P2State :=
  match a with
  | P2Action.cancel => some { s with cancelled := true }
  | P2Action.spawn =>
      match s.phase, s.remaining with
      | P2Phase.looping, _ :: rest =>
          if s.limiterUsed < s.cap then
            some { s with remaining := rest, inFlight := s.inFlight + 1,
                          limiterUsed := s.limiterUsed + 1 }
          else none
      | _, _ => none
  | P2Action.returnEarly =>
      match s.phase, s.remaining, s.cancelled with
      | P2Phase.looping, _ :: _, true =>
          some { s with phase := P2Phase.returnedEarly }
      | _, _, _ => none
  | P2Action.loopDone =>
      match s.phase, s.remaining with
      | P2Phase.looping, [] => some { s with phase := P2Phase.waiting }
      | _, _ => none
  | P2Action.finishTask =>
      match s.inFlight with
      | 0 => none
      | Nat.succ k =>
          if s.outClosed then some { s with badSend := true }
          else some { s with inFlight := k, limiterUsed := s.limiterUsed - 1,
                             sentCount := s.sentCount + 1 }
  | P2Action.closeAll =>
      match s.phase, s.inFlight with
      | P2Phase.waiting, 0 =>
          some { s with outClosed := true, closeCount := s.closeCount + 1,
                        phase := P2Phase.finished }
      | _, _ => none

def run2 (s : P2State) (acts : List P2Action) : Option P2State :=
  match acts with
  | [] => some s
  | a :: rest =>
      match step2 s a with
      | none => none
      | some s' => run2 s' rest

def ProcessURLs (cfg : Config) (urls : List String) : Config × PState :=
  (normalizeConfig cfg, initOfCfg cfg urls)

def cfgZero : Config :=
  { responseTimeout := 480, getTimeout := 450, numGoRoutines := 0, urlGetter := none }

/-- Counting a predicate after a point update of a list. -/
theorem countP_set_eq {α : Type} (p : α → Bool) :
    ∀ (ws : List α) (i : Nat) (u v : α), ws[i]? = some u →
      (ws.set i v).countP p + (if p u then 1 else 0)
        = ws.countP p + (if p v then 1 else 0) := by
  intro ws
  induction ws with
  | nil => intro i u v h; simp at h
  | cons a l ih =>
      intro i u v h
      cases i with
      | zero =>
          simp only [List.getElem?_cons_zero, Option.some.injEq] at h
          subst h
          simp only [List.set_cons_zero, List.countP_cons]
          omega
      | succ i =>
          simp only [List.getElem?_cons_succ] at h
          simp only [List.set_cons_succ, List.countP_cons]
          have := ih i u v h
          omega

theorem set_append_len {α : Type} (l1 : List α) (x v : α) (l2 : List α) :
    (l1 ++ x :: l2).set l1.length v = l1 ++ v :: l2 := by
  induction l1 with
  | nil => simp
  | cons a l ih => simp [ih]

theorem getAt_append_len {α : Type} (l1 : List α) (x : α) (l2 : List α) :
    (l1 ++ x :: l2)[l1.length]? = some x := by
  induction l1 with
  | nil => simp
  | cons a l ih =>
      simpa only [List.cons_append, List.length_cons, List.getElem?_cons_succ] using ih

theorem getAt_set_self {α : Type} :
    ∀ (l : List α) (i : Nat) (u v : α), l[i]? = some u →
      (l.set i v)[i]? = some v := by
  intro l
  induction l with
  | nil => intro i u v h; simp at h
  | cons a t ih =>
      intro i u v h
      cases i with
      | zero => simp
      | succ i =>
          simp only [List.getElem?_cons_succ] at h
          simp only [List.set_cons_succ, List.getElem?_cons_succ]
          exact ih i u v h

/-- The invariant holds initially. -/
theorem inv_init (n : Nat) (urls : List String) : Inv urls (initState n urls) := by
  refine ⟨?_, ?_, ?_, ?_, ?_, ?_, ?_⟩
  · simp [initState]
  · simp only [initState, dispatchedL, List.filter_nil, List.map_nil,
      List.length_nil, List.length_nil, Nat.zero_add]
    rw [List.countP_eq_zero]
    intro a ha
    rw [List.eq_of_mem_replicate ha]
    simp [isBusy]
  · simp [initState]
  · simp [initState]
  · simp [initState]
  · simp [initState]
  · rfl

theorem inv_step {urls0 : List String} {s s' : PState} {a : Action}
    (hinv : Inv urls0 s) (h : step s a = some s') : Inv urls0 s' := by
  obtain ⟨h1, h2, h3, h4, h5, h6, h7⟩ := hinv
  cases a with
  | cancel =>
      simp only [step] at h
      injection h with h
      subst h
      exact ⟨h1, h2, h3, h4, h5, h6, h7⟩
  | dispatch w =>
      simp only [step] at h
      split at h
      · rename_i u rest hph hrem hw
        injection h with h
        subst h
        refine ⟨?_, ?_, ?_, ?_, ?_, ?_, ?_⟩
        · rw [hrem] at h1
          simpa [List.append_assoc] using h1
        · have hc := countP_set_eq isBusy s.workers w WState.idle (WState.fetching u) hw
          simp [isBusy] at hc
          simp only [dispatchedL] at h2 ⊢
          simp [List.filter_append] at h2 ⊢
          omega
        · exact h3
        · exact h4
        · intro ho
          exact absurd (h4.mp ho) (by rw [hph]; simp)
        · exact h6
        · exact h7
      · exact Option.noConfusion h
  | skip =>
      simp only [step] at h
      split at h
      · rename_i u rest hph hrem hc
        injection h with h
        subst h
        refine ⟨?_, ?_, ?_, ?_, ?_, ?_, ?_⟩
        · rw [hrem] at h1
          simpa [List.append_assoc] using h1
        · simp only [dispatchedL] at h2 ⊢
          simp [List.filter_append] at h2 ⊢
          omega
        · exact h3
        · exact h4
        · intro ho
          exact absurd (h4.mp ho) (by rw [hph]; simp)
        · exact h6
        · exact h7
      · exact Option.noConfusion h
  | closeQueue =>
      simp only [step] at h
      split at h
      · rename_i hph hrem
        injection h with h
        subst h
        refine ⟨?_, ?_, ?_, ?_, ?_, ?_, ?_⟩
        · exact h1
        · exact h2
        · simp
        · rw [h4, hph]
          simp
        · intro ho
          exact absurd (h4.mp ho) (by rw [hph]; simp)
        · exact h6
        · exact h7
      · exact Option.noConfusion h
  | complete w res =>
      simp only [step] at h
      split at h
      · rename_i u hw
        injection h with h
        subst h
        refine ⟨?_, ?_, ?_, ?_, ?_, ?_, ?_⟩
        · exact h1
        · have hc := countP_set_eq isBusy s.workers w (WState.fetching u) (WState.sending res) hw
          simp [isBusy] at hc
          simp only [dispatchedL] at h2 ⊢
          omega
        · exact h3
        · exact h4
        · intro ho
          have hmem : WState.fetching u ∈ s.workers := List.getElem?_mem hw
          have := h5 ho _ hmem
          exact absurd this (by simp)
        · exact h6
        · exact h7
      · exact Option.noConfusion h
  | send w =>
      simp only [step] at h
      split at h
      · rename_i r hw
        split at h
        · rename_i ho
          have hmem : WState.sending r ∈ s.workers := List.getElem?_mem hw
          have := h5 ho _ hmem
          exact absurd this (by simp)
        · rename_i ho
          injection h with h
          subst h
          refine ⟨?_, ?_, ?_, ?_, ?_, ?_, ?_⟩
          · exact h1
          · have hc := countP_set_eq isBusy s.workers w (WState.sending r) WState.idle hw
            simp [isBusy] at hc
            simp only [dispatchedL] at h2 ⊢
            simp only [List.length_append, List.length_cons, List.length_nil]
            omega
          · exact h3
          · exact h4
          · intro hx
            exact absurd hx ho
          · exact h6
          · exact h7
      · exact Option.noConfusion h
  | exitW w =>
      simp only [step] at h
      split at h
      · rename_i hw hq
        injection h with h
        subst h
        refine ⟨?_, ?_, ?_, ?_, ?_, ?_, ?_⟩
        · exact h1
        · have hc := countP_set_eq isBusy s.workers w WState.idle WState.done hw
          simp [isBusy] at hc
          simp only [dispatchedL] at h2 ⊢
          omega
        · exact h3
        · exact h4
        · intro ho
          have hmem : WState.idle ∈ s.workers := List.getElem?_mem hw
          have := h5 ho _ hmem
          exact absurd this (by simp)
        · exact h6
        · exact h7
      · exact Option.noConfusion h
  | closeOut =>
      simp only [step] at h
      split at h
      · rename_i hph
        split at h
        · rename_i hall
          injection h with h
          subst h
          have ho : s.outClosed = false := by
            rcases hb : s.outClosed with _ | _
            · rfl
            · exact absurd (h4.mp hb) (by rw [hph]; simp)
          refine ⟨?_, ?_, ?_, ?_, ?_, ?_, ?_⟩
          · exact h1
          · exact h2
          · rw [h3, hph]
            simp
          · simp
          · intro _
            intro x hx
            simp only [allDoneB, List.all_eq_true] at hall
            simpa using hall x hx
          · rw [ho] at h6
            simp at h6
            simp [h6]
          · exact h7
        · exact Option.noConfusion h
      · exact Option.noConfusion h

theorem inv_run {urls0 : List String} :
    ∀ (acts : List Action) (s s' : PState),
      Inv urls0 s → run s acts = some s' → Inv urls0 s' := by
  intro acts
  induction acts with
  | nil =>
      intro s s' hinv h
      simp only [run] at h
      injection h with h
      subst h
      exact hinv
  | cons a rest ih =>
      intro s s' hinv h
      simp only [run] at h
      cases hs : step s a with
      | none => rw [hs] at h; exact Option.noConfusion h
      | some s1 => rw [hs] at h; exact ih s1 s' (inv_step hinv hs) h

theorem run_cons_of_step {s s' : PState} {a : Action} {rest : List Action}
    (h : step s a = some s') : run s (a :: rest) = run s' rest := by
  simp [run, h]

theorem run_append (l1 l2 : List Action) :
    ∀ s, run s (l1 ++ l2) = (run s l1).bind (fun s1 => run s1 l2) := by
  induction l1 with
  | nil => intro s; simp [run]
  | cons a rest ih =>
      intro s
      simp only [List.cons_append, run]
      cases hs : step s a with
      | none => simp
      | some s1 => simp [ih s1]

theorem allDoneB_replicate (n : Nat) :
    allDoneB (List.replicate n WState.done) = true := by
  simp only [allDoneB, List.all_eq_true, decide_eq_true_eq]
  intro x hx
  exact List.eq_of_mem_replicate hx

theorem run_skipActs (us : List String) :
    ∀ (rest : List String) (s : PState),
      s.phase = PPhase.dispatching → s.cancelled = true →
      s.remaining = us ++ rest →
      run s (skipActs us) =
        some { s with remaining := rest,
                      processed := s.processed ++ us.map (fun u => (u, false)) } := by
  induction us with
  | nil =>
      intro rest s hph hc hr
      simp only [List.nil_append] at hr
      simp only [skipActs, run, List.map_nil, List.append_nil]
      rw [← hr]
  | cons u us ih =>
      intro rest s hph hc hr
      simp only [List.cons_append] at hr
      have hstep : step s Action.skip =
          some { s with remaining := us ++ rest,
                        processed := s.processed ++ [(u, false)] } := by
        simp only [step, hph, hc, hr]
      simp only [skipActs, run, hstep]
      rw [ih rest _ (by simp [hph]) (by simp [hc]) (by simp)]
      simp [List.append_assoc]

theorem run_exitActs :
    ∀ (m k : Nat) (s : PState), s.queueClosed = true →
      s.workers = List.replicate k WState.done ++ List.replicate m WState.idle →
      run s (exitActs k m) =
        some { s with workers := List.replicate (k + m) WState.done } := by
  intro m
  induction m with
  | zero =>
      intro k s hq hw
      simp only [List.replicate, List.append_nil] at hw
      simp only [exitActs, run, Nat.add_zero]
      rw [← hw]
  | succ m ih =>
      intro k s hq hw
      have hga := getAt_append_len (List.replicate k WState.done) WState.idle
        (List.replicate m WState.idle)
      simp only [List.length_replicate] at hga
      have hget : s.workers[k]? = some WState.idle := by
        rw [hw, List.replicate_succ]
        exact hga
      have hsa := set_append_len (List.replicate k WState.done) WState.idle
        WState.done (List.replicate m WState.idle)
      simp only [List.length_replicate] at hsa
      have hset : s.workers.set k WState.done =
          List.replicate (k + 1) WState.done ++ List.replicate m WState.idle := by
        rw [hw, List.replicate_succ, hsa]
        simp [List.replicate_succ', List.append_assoc]
      have hstep : step s (Action.exitW k) =
          some { s with workers := s.workers.set k WState.done } := by
        simp only [step, hget, hq]
      simp only [exitActs, run, hstep]
      rw [ih (k + 1) _ (by simp [hq]) (by simp [hset])]
      have harith : k + 1 + m = k + (m + 1) := by omega
      simp [harith]

theorem run_drain (n : Nat) (urls : List String) :
    run (initState n urls) (drainActs n urls) =
      some { remaining := [], processed := urls.map (fun u => (u, false)),
             cancelled := true, queueClosed := true,
             workers := List.replicate n WState.done, phase := PPhase.finished,
             outClosed := true, closeCount := 1, sentList := [], badSend := false } := by
  rw [drainActs, run_cons_of_step (by rfl), run_append,
      run_skipActs urls [] _ (by rfl) (by rfl) (by simp [initState])]
  simp only [Option.some_bind]
  dsimp only [initState]
  rw [run_cons_of_step (by rfl), run_append,
      run_exitActs n 0 _ (by rfl) (by simp)]
  simp only [Option.some_bind]
  have hstep : step
      { remaining := ([] : List String),
        processed := [] ++ urls.map (fun u => (u, false)), cancelled := true,
        queueClosed := true, workers := List.replicate (0 + n) WState.done,
        phase := PPhase.waitingWG, outClosed := false, closeCount := 0,
        sentList := [], badSend := false } Action.closeOut =
      some { remaining := [], processed := [] ++ urls.map (fun u => (u, false)),
             cancelled := true, queueClosed := true,
             workers := List.replicate (0 + n) WState.done,
             phase := PPhase.finished, outClosed := true, closeCount := 0 + 1,
             sentList := [], badSend := false } := by
    simp only [step, allDoneB_replicate, if_true]
  rw [run_cons_of_step hstep]
  simp [run]

theorem stuck2 :
    ∀ (acts : List P2Action) (s s' : P2State),
      s.phase = P2Phase.returnedEarly → s.outClosed = false → s.closeCount = 0 →
      run2 s acts = some s' →
      s'.phase = P2Phase.returnedEarly ∧ s'.outClosed = false ∧ s'.closeCount = 0 := by
  intro acts
  induction acts with
  | nil =>
      intro s s' hp ho hc h
      simp only [run2] at h
      injection h with h
      subst h
      exact ⟨hp, ho, hc⟩
  | cons a rest ih =>
      intro s s' hp ho hc h
      simp only [run2] at h
      cases hs : step2 s a with
      | none => rw [hs] at h; exact Option.noConfusion h
      | some s1 =>
          rw [hs] at h
          have hnext : s1.phase = P2Phase.returnedEarly ∧ s1.outClosed = false ∧
              s1.closeCount = 0 := by
            cases a with
            | cancel =>
                simp only [step2] at hs
                injection hs with hs
                subst hs
                exact ⟨hp, ho, hc⟩
            | spawn =>
                simp only [step2, hp] at hs
                exact Option.noConfusion hs
            | returnEarly =>
                simp only [step2, hp] at hs
                exact Option.noConfusion hs
            | loopDone =>
                simp only [step2, hp] at hs
                exact Option.noConfusion hs
            | finishTask =>
                simp only [step2] at hs
                split at hs
                · exact Option.noConfusion hs
                · rw [ho] at hs
                  simp only [Bool.false_eq_true, if_false] at hs
                  injection hs with hs
                  subst hs
                  exact ⟨hp, rfl, hc⟩
            | closeAll =>
                simp only [step2, hp] at hs
                exact Option.noConfusion hs
          exact ih s1 s' hnext.1 hnext.2.1 hnext.2.2 h

theorem aggregate_sorted_lt (rs : List (List Int)) : (aggregate rs).Sorted (· < ·) :=
  Finset.sort_sorted_lt _

theorem aggregate_nodup (rs : List (List Int)) : (aggregate rs).Nodup :=
  Finset.sort_nodup _ _

theorem aggregate_mem (rs : List (List Int)) (x : Int) :
    x ∈ aggregate rs ↔ ∃ l ∈ rs, x ∈ l := by
  simp [aggregate]

/-- C1: in the `processURLs` transition system, for every input configuration
and identifier list, every schedulable run closes the output channel at most
once, the channel is closed only when every worker goroutine has exited and
the work queue is already closed (the wait-group barrier), and no send on a
closed channel (a late write) ever occurs; moreover a completing run exists
in which the channel is closed exactly once with all workers exited. -/
theorem processURLs_stream_closed_once (cfg : Config) (urls : List String) :
    (∀ (acts : List Action) (s : PState), run (initOfCfg cfg urls) acts = some s →
        s.closeCount ≤ 1 ∧
        (s.outClosed = true →
            (∀ w ∈ s.workers, w = WState.done) ∧ s.queueClosed = true) ∧
        s.badSend = false) ∧
    (∃ (acts : List Action) (s : PState),
        run (initOfCfg cfg urls) acts = some s ∧
        s.closeCount = 1 ∧ s.outClosed = true ∧ ∀ w ∈ s.workers, w = WState.done) := by
  constructor
  · intro acts s h
    have hinv := inv_run acts _ s (inv_init (workerCount cfg) urls) h
    refine ⟨?_, ?_, hinv.noBad⟩
    · rw [hinv.closeOnce]
      split <;> omega
    · intro ho
      refine ⟨hinv.closedDone ho, ?_⟩
      rw [hinv.phaseQueue, hinv.phaseOut.mp ho]
      simp
  · refine ⟨drainActs (workerCount cfg) urls, _, run_drain _ urls, rfl, rfl, ?_⟩
    intro w hw
    exact List.eq_of_mem_replicate hw

/-- Witness for C1 at a concrete configuration and batch. -/
theorem processURLs_stream_closed_once_witness :
    (initOfCfg cfgZero ["a"]).closeCount ≤ 1 ∧
      ((initOfCfg cfgZero ["a"]).outClosed = true →
          (∀ w ∈ (initOfCfg cfgZero ["a"]).workers, w = WState.done) ∧
          (initOfCfg cfgZero ["a"]).queueClosed = true) ∧
      (initOfCfg cfgZero ["a"]).badSend = false :=
  (processURLs_stream_closed_once cfgZero ["a"]).1 [] _ rfl

/-- C2 (bug exhibit): after the context is cancelled, the dispatch loop of
`processURLs` can still deliver the next identifier to a worker — the
`break` inside the `select` exits only the `select`, not the loop — and the
identifier delivered after cancellation is attempted and produces an Item
Result on the stream: a valid run cancels first, then dispatches "a" to
worker 0, which completes and sends a result.  This refutes the claim that
no identifier is enqueued once the context is cancelled. -/
theorem processURLs_enqueues_after_cancel :
    ∃ s1 s2 s3,
      step (initState 1 ["a", "b"]) Action.cancel = some s1 ∧
      s1.cancelled = true ∧ dispatchedL s1 = [] ∧
      step s1 (Action.dispatch 0) = some s2 ∧
      s2.cancelled = true ∧ dispatchedL s2 = ["a"] ∧
      run s2 [Action.complete 0 none, Action.send 0] = some s3 ∧
      s3.sentList = [none] :=
  ⟨_, _, _, rfl, rfl, rfl, rfl, rfl, rfl, rfl, rfl⟩

/-- C3 (bug exhibit): when the context is cancelled during `processURLs2`'s
dispatch loop, the function returns without closing the output channel:
after the run [cancel, returnEarly] the stream is unclosed, and no
continuation of that run can ever close it (`close(out)` is reachable only
after the loop finishes normally).  This refutes the claim that
`processURLs2` closes the output channel exactly once in that case, hence
that it is observationally equivalent to `processURLs`. -/
theorem processURLs2_unclosed_after_cancel (acts : List P2Action) (s1 s2 : P2State)
    (h1 : run2 (init2 20 ["a"]) [P2Action.cancel, P2Action.returnEarly] = some s1)
    (h2 : run2 s1 acts = some s2) :
    s1.outClosed = false ∧ s1.phase = P2Phase.returnedEarly ∧
    s2.outClosed = false ∧ s2.closeCount = 0 := by
  have hrun : run2 (init2 20 ["a"]) [P2Action.cancel, P2Action.returnEarly] =
      some { remaining := ["a"], cancelled := true, inFlight := 0, limiterUsed := 0,
             cap := 20, sentCount := 0, phase := P2Phase.returnedEarly,
             outClosed := false, closeCount := 0, badSend := false } := rfl
  rw [hrun] at h1
  injection h1 with h1
  subst h1
  have h := stuck2 acts _ s2 rfl rfl rfl h2
  exact ⟨rfl, rfl, h.2.1, h.2.2⟩

/-- Witness for C3: the concrete stuck run, continued by the empty
schedule. -/
theorem processURLs2_unclosed_after_cancel_witness :
    ∃ s, run2 (init2 20 ["a"]) [P2Action.cancel, P2Action.returnEarly] = some s ∧
      (s.outClosed = false ∧ s.phase = P2Phase.returnedEarly ∧
        s.outClosed = false ∧ s.closeCount = 0) :=
  ⟨_, rfl, processURLs2_unclosed_after_cancel [] _ _ rfl rfl⟩

/-- C4: the aggregation performed by `ServeHTTP` is strictly ascending and
duplicate-free for every batch of results, and when the received results
are, in any completion order, exactly the integer sequences of the
requested identifiers, its members are exactly those of the union of the
sequences — i.e. it is the sorted, duplicate-free union. -/
theorem handler_result_sorted_dedup_union :
    (∀ rs : List (List Int), (aggregate rs).Sorted (· < ·) ∧ (aggregate rs).Nodup) ∧
    (∀ (urls : List String) (nums : String → List Int) (rs : List (List Int)),
        rs.Perm (urls.map nums) →
        (∀ x : Int, x ∈ aggregate rs ↔ ∃ u ∈ urls, x ∈ nums u) ∧
        aggregate rs = aggregate (urls.map nums)) := by
  refine ⟨fun rs => ⟨aggregate_sorted_lt rs, aggregate_nodup rs⟩, ?_⟩
  intro urls nums rs hperm
  constructor
  · intro x
    rw [aggregate_mem]
    constructor
    · rintro ⟨l, hl, hx⟩
      rcases List.mem_map.mp (hperm.subset hl) with ⟨u, hu, rfl⟩
      exact ⟨u, hu, hx⟩
    · rintro ⟨u, hu, hx⟩
      exact ⟨nums u, hperm.symm.subset (List.mem_map_of_mem _ hu), hx⟩
  · unfold aggregate
    congr 1
    ext z
    simp only [List.mem_toFinset, List.mem_flatten]
    constructor
    · rintro ⟨l, hl, hz⟩
      exact ⟨l, hperm.subset hl, hz⟩
    · rintro ⟨l, hl, hz⟩
      exact ⟨l, hperm.symm.subset hl, hz⟩

/-- Witness for C4 at a concrete batch. -/
theorem handler_result_sorted_dedup_union_witness :
    (∀ x : Int, x ∈ aggregate [[1]] ↔
        ∃ u ∈ ["u"], x ∈ (fun _ : String => [(1 : Int)]) u) ∧
      aggregate [[1]] = aggregate (["u"].map (fun _ => [1])) :=
  handler_result_sorted_dedup_union.2 ["u"] (fun _ => [1]) [[1]] (List.Perm.refl _)

/-- C5: `fetchResponse` yields the nil (absent) Item Result on every failure
path — a `Get` error (request construction, transport error, per-item
timeout or cancellation, non-200 status, body-read error) or a
`json.Unmarshal` failure — and a worker holding an absent result sends it on
the stream like any other result and returns to the queue, so no failure is
surfaced as an error from `ProcessURLs` and none aborts the remaining
identifiers. -/
theorem fetchResponse_absent_on_failure :
    (∀ (dec : String → Option (List Int)) (e : String),
        fetchResponse (Except.error e) dec = none) ∧
    (∀ (dec : String → Option (List Int)) (b : String), dec b = none →
        fetchResponse (Except.ok b) dec = none) ∧
    (∀ (dec : String → Option (List Int)) (o : GetOutcome),
        (∀ b : String, o ≠ GetOutcome.status 200 b) →
        fetchResponse (defaultGetGet o) dec = none) ∧
    (∀ (s : PState) (w : Nat), s.workers[w]? = some (WState.sending none) →
        s.outClosed = false →
        ∃ s', step s (Action.send w) = some s' ∧
          s'.sentList = s.sentList ++ [none] ∧
          s'.workers[w]? = some WState.idle ∧ s'.badSend = s.badSend) := by
  refine ⟨fun dec e => rfl, fun dec b hb => ?_, ?_, ?_⟩
  · simp [fetchResponse, hb]
  · intro dec o ho
    cases o with
    | badURL => rfl
    | doError => rfl
    | readError => rfl
    | status code body =>
        have hc : ¬ code = 200 := fun h => ho body (by rw [h])
        simp [defaultGetGet, fetchResponse, hc]
  · intro s w hw ho
    refine ⟨({ s with workers := s.workers.set w WState.idle,
                      sentList := s.sentList ++ [none] } : PState), ?_, rfl, ?_, rfl⟩
    · simp only [step, hw, ho, Bool.false_eq_true, if_false]
    · exact getAt_set_self s.workers w _ WState.idle hw

/-- Witness for C5: a decode failure yields the absent result. -/
theorem fetchResponse_absent_on_failure_witness :
    fetchResponse (Except.ok "x") (fun _ => none) = none :=
  fetchResponse_absent_on_failure.2.1 (fun _ => none) "x" rfl

/-- C6: in every run of the `processURLs` model, the sequence of identifiers
delivered to workers is a sublist of the requested identifier list (each
occurrence is dispatched to at most one worker and attempted at most once,
never retried), and the number of Item Results sent on the stream never
exceeds the number of requested identifiers. -/
theorem processURLs_at_most_once (cfg : Config) (urls : List String)
    (acts : List Action) (s : PState)
    (h : run (initOfCfg cfg urls) acts = some s) :
    (dispatchedL s).Sublist urls ∧ s.sentList.length ≤ urls.length := by
  have hinv := inv_run acts _ s (inv_init (workerCount cfg) urls) h
  have hsub : (dispatchedL s).Sublist urls := by
    have hsub1 : (dispatchedL s).Sublist (s.processed.map Prod.fst) :=
      (List.filter_sublist _).map Prod.fst
    have hsub2 : (s.processed.map Prod.fst).Sublist urls := by
      rw [← hinv.split]
      exact List.sublist_append_left _ _
    exact hsub1.trans hsub2
  refine ⟨hsub, ?_⟩
  have h1 := hinv.sentBusy
  have h2 := hsub.length_le
  omega

/-- Witness for C6 at a concrete configuration and batch. -/
theorem processURLs_at_most_once_witness :
    (dispatchedL (initOfCfg cfgZero ["a"])).Sublist ["a"] ∧
      (initOfCfg cfgZero ["a"]).sentList.length ≤ (["a"] : List String).length :=
  processURLs_at_most_once cfgZero ["a"] [] _ rfl

/-- C7: `ProcessURLs` replaces a non-positive worker count with the package
default 20 and keeps a positive one; it spins up exactly that many workers;
and it installs `NewDefaultGet(cfg.GetTimeout)` when no `URLGetter` is
supplied, keeping a supplied one. -/
theorem ProcessURLs_defaults (cfg : Config) (urls : List String) :
    (cfg.numGoRoutines ≤ 0 → (normalizeConfig cfg).numGoRoutines = 20) ∧
    (0 < cfg.numGoRoutines →
        (normalizeConfig cfg).numGoRoutines = cfg.numGoRoutines) ∧
    (cfg.urlGetter = none →
        (normalizeConfig cfg).urlGetter =
          some (URLGetterV.defaultGet cfg.getTimeout)) ∧
    (∀ g, cfg.urlGetter = some g → (normalizeConfig cfg).urlGetter = some g) ∧
    (cfg.numGoRoutines ≤ 0 → (initOfCfg cfg urls).workers.length = 20) ∧
    (0 < cfg.numGoRoutines →
        ((initOfCfg cfg urls).workers.length : Int) = cfg.numGoRoutines) := by
  refine ⟨?_, ?_, ?_, ?_, ?_, ?_⟩
  · intro h
    simp [normalizeConfig, numGoRoutinesVar, h]
  · intro h
    have hn : ¬ cfg.numGoRoutines ≤ 0 := by omega
    simp [normalizeConfig, hn]
  · intro h
    simp [normalizeConfig, h]
  · intro g h
    simp [normalizeConfig, h]
  · intro h
    simp [initOfCfg, initState, workerCount, normalizeConfig, numGoRoutinesVar, h]
  · intro h
    have hn : ¬ cfg.numGoRoutines ≤ 0 := by omega
    simp [initOfCfg, initState, workerCount, normalizeConfig, hn]
    omega

/-- Witness for C7 at a concrete configuration. -/
theorem ProcessURLs_defaults_witness :
    (normalizeConfig cfgZero).numGoRoutines = 20 ∧
      (initOfCfg cfgZero ["a"]).workers.length = 20 :=
  ⟨(ProcessURLs_defaults cfgZero ["a"]).1 (by decide),
   (ProcessURLs_defaults cfgZero ["a"]).2.2.2.2.1 (by decide)⟩

/-- C9: `ProcessURLs` mutates the caller-supplied Config in place: after the
call the caller's Config has worker count 20 when a non-positive one was
supplied, and carries the installed default `URLGetter` when the field was
nil; the handler stores this mutated Config (it passes a pointer to
`ng.Config`), and a later call reusing the same Config sees and keeps the
normalized values (normalization is idempotent). -/
theorem ProcessURLs_mutates_config (cfg : Config) (urls urls2 : List String)
    (results : List (Option (List Int))) :
    (cfg.numGoRoutines ≤ 0 → (ProcessURLs cfg urls).1.numGoRoutines = 20) ∧
    (cfg.urlGetter = none →
        (ProcessURLs cfg urls).1.urlGetter =
          some (URLGetterV.defaultGet cfg.getTimeout)) ∧
    normalizeConfig (normalizeConfig cfg) = normalizeConfig cfg ∧
    (ServeHTTP cfg true results).1 = normalizeConfig cfg ∧
    (ProcessURLs (ProcessURLs cfg urls).1 urls2).1 = (ProcessURLs cfg urls).1 := by
  have hid : normalizeConfig (normalizeConfig cfg) = normalizeConfig cfg := by
    cases cfg with
    | mk rt gt n g =>
        cases g with
        | none =>
            simp [normalizeConfig, numGoRoutinesVar]
            split <;> omega
        | some x =>
            simp [normalizeConfig, numGoRoutinesVar]
            split <;> omega
  refine ⟨?_, ?_, hid, rfl, hid⟩
  · intro h
    simp [ProcessURLs, normalizeConfig, numGoRoutinesVar, h]
  · intro h
    simp [ProcessURLs, normalizeConfig, h]

/-- Witness for C9 at a concrete configuration. -/
theorem ProcessURLs_mutates_config_witness :
    (ProcessURLs cfgZero ["a"]).1.numGoRoutines = 20 ∧
      (ProcessURLs cfgZero ["a"]).1.urlGetter =
        some (URLGetterV.defaultGet cfgZero.getTimeout) :=
  ⟨(ProcessURLs_mutates_config cfgZero ["a"] ["b"] []).1 (by decide),
   (ProcessURLs_mutates_config cfgZero ["a"] ["b"] []).2.1 rfl⟩

/-- C8: whenever `ServeHTTP` gets past form parsing, it writes status 200
with Content-Type application/json and the ascending aggregated sequence as
the body — also when some or all Item Results are absent, in which case the
body degrades to the empty sequence; there is no error-status path for
partial or total item failure. -/
theorem handler_status_200_always (cfg : Config)
    (results : List (Option (List Int))) :
    (ServeHTTP cfg true results).2 =
      HandlerOutcome.response 200 "application/json"
        (aggregate (results.map itemValues)) ∧
    List.Sorted (· < ·) (aggregate (results.map itemValues)) ∧
    ((∀ r ∈ results, r = none) →
        (ServeHTTP cfg true results).2 =
          HandlerOutcome.response 200 "application/json" []) := by
  refine ⟨rfl, aggregate_sorted_lt _, ?_⟩
  intro hall
  have hjoin : (results.map itemValues).flatten = [] := by
    rw [List.flatten_eq_nil_iff]
    intro l hl
    rcases List.mem_map.mp hl with ⟨r, hr, rfl⟩
    rw [hall r hr]
    rfl
  simp [ServeHTTP, aggregate, hjoin]

/-- Witness for C8: all items failed, the response is still 200 with an
empty sequence. -/
theorem handler_status_200_always_witness :
    (ServeHTTP cfgZero true [none]).2 =
      HandlerOutcome.response 200 "application/json" [] :=
  (handler_status_200_always cfgZero [none]).2.2 (by simp)

/-- C10: when `r.ParseForm()` fails, `ServeHTTP` terminates the process via
`log.Fatal("incorrect form")`: the outcome is the fatal one — no HTTP
response is written for the request, and the whole process (hence service
of all other requests) stops; the stored Config is untouched. -/
theorem handler_fatal_on_parse_error (cfg : Config)
    (results : List (Option (List Int))) :
    ServeHTTP cfg false results = (cfg, HandlerOutcome.fatal "incorrect form") := rfl

end Numbers
